import Mathlib

/-!
Shallow embedding of the incremental-update / bundle-import core of the
crypto OHLCV data repository (files `src/utils/crypto_data_fetcher.py` and
`scripts/import_binance_bundles.py`), together with theorems settling the
spec claims about it.

Timestamps are UTC epoch instants in milliseconds, embedded as `Int`.
Prices and volumes are embedded as `ℚ` (the data values are decimal
literals; the claims under study concern null/non-null conditions and
exact formulas, not IEEE rounding).  The one place where floating-point
special values matter — division by a zero first close in the manifest
writers — is modelled explicitly by `FloatVal`.
-/

namespace CryptoData

/-- One OHLCV observation.  Field `o`/`h`/`l`/`c`/`v` embed the source
columns open/high/low/close/volume. -/
structure Candle where
  o : ℚ
  h : ℚ
  l : ℚ
  c : ℚ
  v : ℚ
deriving DecidableEq, Repr

/-- A pandas DataFrame indexed by timestamp: an ordered list of
(timestamp, candle) rows.  Row order is the DataFrame row order; the
Series invariant (strictly increasing timestamps) is stated separately. -/
abbrev Series := List (Int × Candle)

/-- The index column of a Series (list of timestamps in row order). -/
def tsKeys (s : Series) : List Int := s.map Prod.fst

/-- Pandas `combined[~combined.index.duplicated(keep='last')]`: keep, for each
timestamp, only its last occurrence, at that occurrence's position. -/
def dedupKeepLast : Series → Series
  | [] => []
  | x :: xs => if xs.any (fun y => y.1 == x.1) then dedupKeepLast xs else x :: dedupKeepLast xs

/-- Pandas `combined.sort_index()`: sort rows by timestamp (after dedup the
timestamps are pairwise distinct, so any comparison sort yields this). -/
def sortByTs (s : Series) : Series := s.insertionSort (fun a b => a.1 ≤ b.1)

/-- The merge-and-dedup write step shared by
`CryptoDataFetcher.update_symbols_to_now` (lines 311-315) and
`write_month_partition` (lines 130-132): concatenate old and new,
drop duplicated timestamps keeping the last occurrence, sort by time. -/
def mergeDedup (old new : Series) : Series := sortByTs (dedupKeepLast (old ++ new))

/-- Look a timestamp up in a Series (`df.loc[t]` on a unique index):
the first row carrying that timestamp, if any. -/
def lookupTs (s : Series) (t : Int) : Option Candle :=
  (s.find? (fun y => y.1 == t)).map Prod.snd

/-! ### Bundle importer: open-time unit auto-detection
(`read_bundle_csv`, `scripts/import_binance_bundles.py` lines 74-83) -/

/-- The three epoch units a bundle's open-time column may use. -/
inductive TimeUnit where
  | us
  | ms
  | s
deriving DecidableEq, Repr

/-- Line 76: `max_ot = df['open_time'].abs().max() if not ... empty else 0`. -/
def max_abs_open_time (xs : List Int) : Int := xs.foldl (fun m x => max m |x|) 0

/-- Lines 77-82: `if max_ot > 1e14: unit='us' elif max_ot > 1e11: unit='ms'
else: unit='s'` (the float thresholds 1e14 and 1e11 are exactly the
integers 10^14 and 10^11, and Python compares int against float exactly). -/
def detect_open_time_unit (max_ot : Int) : TimeUnit :=
  if max_ot > 10 ^ 14 then .us
  else if max_ot > 10 ^ 11 then .ms
  else .s

/-! ### Timeframe interval and resume planning
(`CryptoDataFetcher.update_symbols_to_now`, lines 244-273) -/

/-- Python `timeframe.endswith(c)` for a one-character suffix: test the last
character. -/
def strEndsWith (s : String) (c : Char) : Bool :=
  match s.data.getLast? with
  | some z => z == c
  | none => false

/-- Python `timeframe.replace(c, '')` for a one-character pattern: remove every
occurrence of the character. -/
def strRemoveChar (s : String) (c : Char) : List Char :=
  s.data.filter (fun x => !(x == c))

/-- Python `int(cs) if cs.isdigit() else None`: `str.isdigit()` is true exactly on
a nonempty all-digit string, and `int` then parses it as decimal. -/
def digitsToNat? (cs : List Char) : Option Nat :=
  if cs.isEmpty then none
  else if cs.all Char.isDigit then
    some (cs.foldl (fun acc c => 10 * acc + (c.toNat - 48)) 0)
  else none

/-- Lines 244-254: the per-bar interval, in milliseconds, that
`update_symbols_to_now` derives from the timeframe string:
`timeframe.endswith('h')` → n hours where `n = int(timeframe.replace('h',''))
if ...isdigit() else 1`; likewise for `'d'` with days; anything else falls
back to one hour. -/
def interval_of_timeframe (timeframe : String) : Int :=
  if strEndsWith timeframe 'h' then
    3600000 * (((digitsToNat? (strRemoveChar timeframe 'h')).getD 1 : ℕ) : ℤ)
  else if strEndsWith timeframe 'd' then
    86400000 * (((digitsToNat? (strRemoveChar timeframe 'd')).getD 1 : ℕ) : ℤ)
  else
    3600000

/-- The bar duration, in milliseconds, actually denoted by a timeframe
string of the conventional form `<digits>m` / `<digits>h` / `<digits>d`
(spec glossary: "Timeframe: the bucket width of a Series (e.g., one
minute, one hour, one day)").  This is the spec-side notion of Δ used to
compare against the code's `interval_of_timeframe`. -/
def barDurationMs (timeframe : String) : Option Int :=
  if strEndsWith timeframe 'm' then
    (digitsToNat? timeframe.data.dropLast).map (fun n => 60000 * (n : Int))
  else if strEndsWith timeframe 'h' then
    (digitsToNat? timeframe.data.dropLast).map (fun n => 3600000 * (n : Int))
  else if strEndsWith timeframe 'd' then
    (digitsToNat? timeframe.data.dropLast).map (fun n => 86400000 * (n : Int))
  else none

/-- Python exception kinds relevant here. -/
inductive PyExc where
  | typeError
deriving DecidableEq, Repr

/-- Python `timedelta(days=d)` in milliseconds; `timedelta(days=None)` raises
`TypeError` (unsupported type for timedelta days component). -/
def timedelta_days_ms : Option Int → Except PyExc Int
  | some d => .ok (86400000 * d)
  | none => .error .typeError

/-- Lines 265-273 of `update_symbols_to_now`: the since-timestamp for one
symbol.  `existingLast` is the last timestamp of the canonical CSV when
that file exists, `none` otherwise; `days_back` is the `days_back`
argument (`none` embeds Python `None`).  The lines sit outside any
`try`, so a raised `TypeError` propagates to the caller. -/
def since_ms_for_symbol (existingLast : Option Int) (overlap : Int)
    (timeframe : String) (nowMs : Int) (days_back : Option Int) : Except PyExc Int :=
  match existingLast with
  | some lastTs => .ok (lastTs - overlap * interval_of_timeframe timeframe)
  | none => (timedelta_days_ms days_back).map (fun w => nowMs - w)

/-- File `scripts/update_symbol_latest.py` line 51: the update-to-latest CLI
calls `update_symbols_to_now(..., days_back=None, ...)`; this is the
since-computation it thereby triggers for one symbol. -/
def update_symbol_latest_since (existingLast : Option Int) (overlap : Int)
    (timeframe : String) (nowMs : Int) : Except PyExc Int :=
  since_ms_for_symbol existingLast overlap timeframe nowMs none

/-! ### Manifest synthesizer: total-return percentage -/

/-- An IEEE-754 double as far as these claims need it: a finite value
(held exactly, the inputs being decimal data), or one of the non-finite
values that arise from dividing by zero. -/
inductive FloatVal where
  | num (q : ℚ)
  | posInf
  | negInf
  | nan
deriving DecidableEq, Repr

/-- Float division `a / b`: division by zero yields ±inf or NaN and does
NOT raise an exception (numpy float64 semantics; only a RuntimeWarning
is emitted). -/
def floatDiv (a b : ℚ) : FloatVal :=
  if b = 0 then
    if 0 < a then .posInf else if a < 0 then .negInf else .nan
  else .num (a / b)

/-- Computes `(x - 1) * 100` on a float: finite values are shifted and scaled,
±inf and NaN are absorbing. -/
def floatShiftScale : FloatVal → FloatVal
  | .num q => .num ((q - 1) * 100)
  | x => x

/-- The fetcher-side manifest writer's total-return computation
(`save_data` lines 515-520, duplicated in `update_symbols_to_now` lines
367-372): `total_return_pct = None`, then inside `try`, if the close
column has at least 2 entries,
`float((close.iloc[-1] / close.iloc[0] - 1) * 100)`.  The `except`
never fires for a zero first close because float division does not
raise.  Input: the close column of the final Series; `none` embeds
Python `None` (serialized as null). -/
def total_return_pct_fetcher (closes : List ℚ) : Option FloatVal :=
  if 2 ≤ closes.length then
    match closes.getLast?, closes.head? with
    | some last, some first => some (floatShiftScale (floatDiv last first))
    | _, _ => none
  else none

/-- The bundle importer's total-return computation
(`write_month_partition` lines 176-179, executed whenever the combined
month partition is nonempty):
`(last_close / first_close - 1.0) * 100.0 if first_close != 0 else None`.
Input: the close column of the combined partition; `none` embeds both
"key absent" (empty partition) and Python `None`. -/
def total_return_pct_importer (closes : List ℚ) : Option ℚ :=
  match closes.getLast?, closes.head? with
  | some last, some first =>
      if first ≠ 0 then some ((last / first - 1) * 100) else none
  | _, _ => none

/-! ### Chunked range fetcher
(`fetch_historical_data` lines 171-195 = `update_symbols_to_now` lines
287-303). The exchange is abstracted as a page oracle `fetch : Int → Series`
mapping a cursor to the page returned at it; `lim` is the requested page
size (1000 at both call sites).  The Python loop is unbounded, so the
embedding takes fuel; `none` means the loop has not terminated within
the given fuel. -/

/-- Direct transcription of the Python while-loop:
fetch at cursor; `if df.empty: break`; `all_data.append(df)`;
if the page's last timestamp ≥ `end_time_ms`, trim the page to rows
with timestamp ≤ end, overwrite the just-appended entry (`all_data[-1] = df`)
and break; `if len(df) < 1000: break`; else
`current_since = last_ts + 1` and loop. -/
def chunked_fetch_code (fetch : Int → Series) (lim : Nat) (endMs : Int) :
    Nat → Int → List Series → Option (List Series)
  | 0, _, _ => none
  | fuel + 1, cursor, acc =>
    let df := fetch cursor
    match df.getLast? with
    | none => some acc
    | some lastRow =>
      let acc1 := acc ++ [df]
      if endMs ≤ lastRow.1 then
        some (acc1.dropLast ++ [df.filter (fun r => r.1 ≤ endMs)])
      else if df.length < lim then some acc1
      else chunked_fetch_code fetch lim endMs fuel (lastRow.1 + 1) acc1

/-- The claim's wording of the same loop, written independently:
"cursor starts at start; each iteration fetches one page at the cursor;
an empty page stops the loop; the page is appended; if the page's last
timestamp is ≥ end the page is trimmed to rows with timestamp ≤ end and
the loop stops; if the page has fewer rows than the requested page size
the loop stops; otherwise the cursor advances to the page's last
timestamp plus one smallest time unit (1 ms) and the loop continues." -/
def chunked_fetch_spec (fetch : Int → Series) (lim : Nat) (endMs : Int) :
    Nat → Int → List Series → Option (List Series)
  | 0, _, _ => none
  | fuel + 1, cursor, acc =>
    let page := fetch cursor
    match page.getLast? with
    | none => some acc
    | some lastRow =>
      if endMs ≤ lastRow.1 then
        some (acc ++ [page.filter (fun r => r.1 ≤ endMs)])
      else if page.length < lim then some (acc ++ [page])
      else chunked_fetch_spec fetch lim endMs fuel (lastRow.1 + 1) (acc ++ [page])

/-- Top-level entry of the loop: the cursor starts at `start`, the
accumulator empty. -/
def chunked_fetch_run (fetch : Int → Series) (lim : Nat) (endMs : Int)
    (fuel : Nat) (start : Int) : Option (List Series) :=
  chunked_fetch_code fetch lim endMs fuel start []

/-! ### save_data append-only path
(`CryptoDataFetcher.save_data` lines 449-463) -/

/-- The read-modify-write step of `save_data` when the partition file
already exists: `last_ts = existing.index[-1]`;
`new_rows = df[df.index > last_ts]`; if `new_rows` is nonempty,
concat + dedup(keep='last') + sort; else keep `existing` unchanged.
An empty existing file makes `existing.index[-1]` raise (modelled as
`none`). -/
def save_data_existing_merge (existing df : Series) : Option Series :=
  match existing.getLast? with
  | none => none
  | some lastRow =>
    let new_rows := df.filter (fun r => lastRow.1 < r.1)
    if new_rows.isEmpty then some existing
    else some (mergeDedup existing new_rows)

/-! ### Bundle importer: month loop and yearly roll-up
(`import_binance_bundles.py` `main`, lines 256-308) -/

/-- A fresh import of one month's bundle rows into a not-yet-existing
month partition: `write_month_partition` with empty `existing`, whose
`combined` is then `dedup(sort(df))`, and whose manifest `rows` field is
`len(combined)`. -/
def month_partition_rows (df : Series) : Nat := (mergeDedup [] df).length

/-- The per-symbol month loop of `main` on a fresh data directory: each
month's bundle DataFrame is written to its own partition, yielding that
month's `rows` manifest entry. -/
def import_months (bundles : List (String × Series)) : List (String × Nat) :=
  bundles.map (fun b => (b.1, month_partition_rows b.2))

/-- Lines 297-306: the yearly roll-up total,
`total_rows += info.get('rows', 0) or 0` over the months of the year
(`none` embeds an absent/None rows field, which `or 0` turns into 0). -/
def yearly_rollup_rows (months : List (String × Option Nat)) : Nat :=
  months.foldl (fun acc m => acc + m.2.getD 0) 0

/-- The month infos produced by the importer, as the roll-up sees them
(`rows` is always present and numeric on this path). -/
def rollup_input (infos : List (String × Nat)) : List (String × Option Nat) :=
  infos.map (fun i => (i.1, some i.2))

/-! ### Helper lemmas about dedup / sort / lookup -/

instance : IsTotal (Int × Candle) (fun a b => a.1 ≤ b.1) :=
  ⟨fun a b => Int.le_total a.1 b.1⟩

instance : IsTrans (Int × Candle) (fun a b => a.1 ≤ b.1) :=
  ⟨fun _ _ _ h1 h2 => le_trans h1 h2⟩

theorem mem_dedupKeepLast {s : Series} {x : Int × Candle}
    (hx : x ∈ dedupKeepLast s) : x ∈ s := by
  induction s with
  | nil => cases hx
  | cons y ys ih =>
    rw [dedupKeepLast] at hx
    by_cases hdup : ys.any (fun z => z.1 == y.1)
    · exact List.mem_cons_of_mem _ (ih (by rwa [if_pos hdup] at hx))
    · rw [if_neg hdup] at hx
      rcases List.mem_cons.mp hx with rfl | hx'
      · exact List.mem_cons_self _ _
      · exact List.mem_cons_of_mem _ (ih hx')

theorem tsKeys_dedupKeepLast_nodup (s : Series) : (tsKeys (dedupKeepLast s)).Nodup := by
  induction s with
  | nil => exact List.nodup_nil
  | cons y ys ih =>
    rw [dedupKeepLast]
    by_cases hdup : ys.any (fun z => z.1 == y.1)
    · rwa [if_pos hdup]
    · rw [if_neg hdup]
      refine List.Nodup.cons ?_ ih
      intro hmem
      rcases List.mem_map.mp hmem with ⟨z, hz, hzk⟩
      exact hdup (List.any_eq_true.mpr ⟨z, mem_dedupKeepLast hz, by simp [hzk]⟩)

/-- The function `dedupKeepLast` keeps, for each timestamp, the row of its last occurrence:
looking a timestamp up among the deduplicated rows is looking it up from the
back of the original rows. -/
theorem find?_dedupKeepLast (s : Series) (t : Int) :
    (dedupKeepLast s).find? (fun y => y.1 == t)
      = s.reverse.find? (fun y => y.1 == t) := by
  induction s with
  | nil => rfl
  | cons x xs ih =>
    rw [dedupKeepLast, List.reverse_cons, List.find?_append]
    by_cases hdup : xs.any (fun z => z.1 == x.1)
    · rw [if_pos hdup, ih]
      cases hfind : xs.reverse.find? (fun y => y.1 == t) with
      | some z => simp
      | none =>
        rw [List.find?_eq_none] at hfind
        have hxt : ¬ (x.1 == t) = true := by
          intro hxt
          rcases List.any_eq_true.mp hdup with ⟨z, hz, hzx⟩
          exact hfind z (List.mem_reverse.mpr hz)
            (by simp only [beq_iff_eq] at hzx hxt ⊢; omega)
        simp [hxt]
    · rw [if_neg hdup]
      by_cases hxt : (x.1 == t) = true
      · have hnone : xs.reverse.find? (fun y => y.1 == t) = none := by
          rw [List.find?_eq_none]
          intro z hz hzt
          refine hdup (List.any_eq_true.mpr ⟨z, List.mem_reverse.mp hz, ?_⟩)
          simp only [beq_iff_eq] at hzt hxt ⊢
          omega
        simp [List.find?_cons, hxt, hnone]
      · have hxt' : (x.1 == t) = false := by simpa using hxt
        simp [List.find?_cons, hxt', ih, Option.or_none]

/-- On a Series whose timestamps are pairwise distinct, a successful key
lookup is determined by membership. -/
theorem find?_key_of_mem {l : Series} {x : Int × Candle} {t : Int}
    (hn : (tsKeys l).Nodup) (hm : x ∈ l) (ht : x.1 = t) :
    l.find? (fun y => y.1 == t) = some x := by
  induction l with
  | nil => cases hm
  | cons y ys ih =>
    rw [tsKeys, List.map_cons, List.nodup_cons] at hn
    rcases List.mem_cons.mp hm with rfl | hm'
    · exact List.find?_cons_of_pos _ (by simp [ht])
    · have hy : ¬ (y.1 == t) = true := by
        intro he
        refine hn.1 ?_
        have : x.1 ∈ tsKeys ys := List.mem_map.mpr ⟨x, hm', rfl⟩
        simp only [beq_iff_eq] at he
        rw [he, ← ht]
        exact this
      have hy' : (y.1 == t) = false := by simpa using hy
      simp only [List.find?_cons, hy']
      exact ih hn.2 hm'

/-- Key lookup is invariant under permutation as long as the timestamps are
pairwise distinct. -/
theorem find?_key_eq_of_perm {l l' : Series} {t : Int} (hp : l.Perm l')
    (hn : (tsKeys l).Nodup) :
    l.find? (fun y => y.1 == t) = l'.find? (fun y => y.1 == t) := by
  cases hf : l.find? (fun y => y.1 == t) with
  | none =>
    symm
    rw [List.find?_eq_none] at hf ⊢
    intro x hx
    exact hf x (hp.symm.subset hx)
  | some x =>
    have hx : x ∈ l := List.mem_of_find?_eq_some hf
    have hxt : x.1 = t := by simpa using List.find?_some hf
    have hn' : (tsKeys l').Nodup := ((hp.map Prod.fst).nodup_iff).mp hn
    exact (find?_key_of_mem hn' (hp.subset hx) hxt).symm

theorem sortByTs_perm (s : Series) : (sortByTs s).Perm s :=
  List.perm_insertionSort _ s

/-- Looking a timestamp up in a merged Series is looking it up from the back
of the concatenation `old ++ new`. -/
theorem lookupTs_mergeDedup (a b : Series) (t : Int) :
    lookupTs (mergeDedup a b) t
      = ((a ++ b).reverse.find? (fun y => y.1 == t)).map Prod.snd := by
  unfold lookupTs mergeDedup
  have hnd : (tsKeys (dedupKeepLast (a ++ b))).Nodup := tsKeys_dedupKeepLast_nodup _
  have hnds : (tsKeys (sortByTs (dedupKeepLast (a ++ b)))).Nodup :=
    (((sortByTs_perm _).map Prod.fst).nodup_iff).mpr hnd
  rw [find?_key_eq_of_perm (sortByTs_perm _) hnds, find?_dedupKeepLast]

theorem dedupKeepLast_eq_self_of_nodup {s : Series} (hn : (tsKeys s).Nodup) :
    dedupKeepLast s = s := by
  induction s with
  | nil => rfl
  | cons y ys ih =>
    rw [tsKeys, List.map_cons, List.nodup_cons] at hn
    rw [dedupKeepLast, if_neg, ih hn.2]
    intro hdup
    rcases List.any_eq_true.mp hdup with ⟨z, hz, hzy⟩
    simp only [beq_iff_eq] at hzy
    exact hn.1 (List.mem_map.mpr ⟨z, hz, hzy⟩)

theorem dedupKeepLast_append_of_covered {a b : Series}
    (hcov : ∀ x ∈ a, x.1 ∈ tsKeys b) :
    dedupKeepLast (a ++ b) = dedupKeepLast b := by
  induction a with
  | nil => rfl
  | cons x xs ih =>
    rw [List.cons_append, dedupKeepLast, if_pos, ih]
    · intro y hy
      exact hcov y (List.mem_cons_of_mem _ hy)
    · rcases List.mem_map.mp (hcov x (List.mem_cons_self _ _)) with ⟨z, hz, hzx⟩
      exact List.any_eq_true.mpr ⟨z, List.mem_append_right _ hz, by simp [hzx]⟩

theorem sortByTs_eq_self_of_sorted {s : Series}
    (hs : List.Sorted (fun x y : Int × Candle => x.1 ≤ y.1) s) :
    sortByTs s = s :=
  List.Sorted.insertionSort_eq hs

/-- A Series with strictly increasing timestamps is sorted for the merge
relation and has pairwise-distinct timestamps. -/
theorem sorted_of_strictIncr {s : Series} (h : (tsKeys s).Pairwise (· < ·)) :
    List.Sorted (fun x y : Int × Candle => x.1 ≤ y.1) s :=
  (List.pairwise_map.mp h).imp (fun hlt => le_of_lt hlt)

theorem nodup_of_strictIncr {s : Series} (h : (tsKeys s).Pairwise (· < ·)) :
    (tsKeys s).Nodup :=
  h.imp (fun hlt => ne_of_lt hlt)

theorem foldl_rollup_eq_sum (l : List (String × Nat)) (acc : Nat) :
    (rollup_input l).foldl (fun a m => a + m.2.getD 0) acc
      = acc + (l.map (fun i => i.2)).sum := by
  induction l generalizing acc with
  | nil => simp [rollup_input]
  | cons x xs ih =>
    rw [rollup_input, List.map_cons, List.foldl_cons]
    rw [rollup_input] at ih
    rw [ih]
    simp [List.sum_cons]
    omega

/-! ### Claim theorems -/

/-- C2: for every old Series and new Series and every timestamp present in
both with differing values, the Series produced by the Merge-and-Dedup
Writer has at that timestamp exactly the new Series' value
(last-source-wins). -/
theorem claim_C2_last_write_wins (old new : Series) (t : Int)
    (_hold : (tsKeys old).Pairwise (· < ·))
    (hnew : (tsKeys new).Pairwise (· < ·))
    (_hto : t ∈ tsKeys old) (htn : t ∈ tsKeys new)
    (_hdiff : lookupTs old t ≠ lookupTs new t) :
    lookupTs (mergeDedup old new) t = lookupTs new t := by
  rcases List.mem_map.mp htn with ⟨x, hx, hxt⟩
  have hnn : (tsKeys new).Nodup := nodup_of_strictIncr hnew
  have hnnr : (tsKeys new.reverse).Nodup := by
    unfold tsKeys
    rw [List.map_reverse]
    exact List.nodup_reverse.mpr hnn
  have h1 : new.reverse.find? (fun y => y.1 == t) = some x :=
    find?_key_of_mem hnnr (List.mem_reverse.mpr hx) hxt
  have h2 : new.find? (fun y => y.1 == t) = some x :=
    find?_key_of_mem hnn hx hxt
  rw [lookupTs_mergeDedup, List.reverse_append, List.find?_append, h1]
  simp [lookupTs, h2]

/-- Witness for C2 at a concrete input: old and new both hold timestamp 7
with different closes; the merged Series carries the new row's value. -/
theorem claim_C2_witness :
    lookupTs (mergeDedup [((7 : Int), ⟨1, 1, 1, 1, 1⟩)] [((7 : Int), ⟨2, 2, 2, 2, 2⟩)]) 7
      = lookupTs [((7 : Int), ⟨2, 2, 2, 2, 2⟩)] 7 :=
  claim_C2_last_write_wins [((7 : Int), ⟨1, 1, 1, 1, 1⟩)] [((7 : Int), ⟨2, 2, 2, 2, 2⟩)] 7
    (by decide) (by decide) (by decide) (by decide) (by decide)

/-- C7: every Series produced by the Merge-and-Dedup Writer has strictly
increasing timestamps: no duplicates and no inversions. -/
theorem claim_C7_sort_invariant (old new : Series) :
    (tsKeys (mergeDedup old new)).Pairwise (· < ·) := by
  have hs : List.Sorted (fun x y : Int × Candle => x.1 ≤ y.1) (mergeDedup old new) :=
    List.sorted_insertionSort _ _
  have hks : (tsKeys (mergeDedup old new)).Pairwise (· ≤ ·) := by
    unfold tsKeys
    exact List.pairwise_map.mpr hs
  have hnd : (tsKeys (mergeDedup old new)).Nodup := by
    unfold mergeDedup
    exact (((sortByTs_perm _).map Prod.fst).nodup_iff).mpr
      (tsKeys_dedupKeepLast_nodup _)
  exact List.Sorted.lt_of_le hks hnd

/-- C8: merging a Series with itself yields the same Series, in both length
and content. -/
theorem claim_C8_merge_idempotent (S : Series)
    (hS : (tsKeys S).Pairwise (· < ·)) :
    mergeDedup S S = S := by
  have hnd : (tsKeys S).Nodup := nodup_of_strictIncr hS
  have hcov : ∀ x ∈ S, x.1 ∈ tsKeys S := fun x hx => List.mem_map.mpr ⟨x, hx, rfl⟩
  unfold mergeDedup
  rw [dedupKeepLast_append_of_covered hcov, dedupKeepLast_eq_self_of_nodup hnd]
  exact sortByTs_eq_self_of_sorted (sorted_of_strictIncr hS)

/-- Witness for C8 at a concrete two-row Series. -/
theorem claim_C8_witness :
    mergeDedup [((1 : Int), ⟨1, 2, 0, 1, 5⟩), ((2 : Int), ⟨1, 3, 1, 2, 6⟩)]
        [((1 : Int), ⟨1, 2, 0, 1, 5⟩), ((2 : Int), ⟨1, 3, 1, 2, 6⟩)]
      = [((1 : Int), ⟨1, 2, 0, 1, 5⟩), ((2 : Int), ⟨1, 3, 1, 2, 6⟩)] :=
  claim_C8_merge_idempotent
    [((1 : Int), ⟨1, 2, 0, 1, 5⟩), ((2 : Int), ⟨1, 3, 1, 2, 6⟩)] (by decide)

/-- C5: the importer interprets the open-time column's unit by the magnitude
of the maximum absolute value: strictly greater than 1e14 means
microseconds, else strictly greater than 1e11 means milliseconds, else
seconds; 1700000000000000 reads as microseconds, 1700000000000 as
milliseconds, 1700000000 as seconds. -/
theorem claim_C5_unit_detection :
    detect_open_time_unit (max_abs_open_time [1700000000000000]) = .us
    ∧ detect_open_time_unit (max_abs_open_time [1700000000000]) = .ms
    ∧ detect_open_time_unit (max_abs_open_time [1700000000]) = .s
    ∧ ∀ v : Int,
        (detect_open_time_unit v = .us ↔ 10 ^ 14 < v)
        ∧ (detect_open_time_unit v = .ms ↔ (v ≤ 10 ^ 14 ∧ 10 ^ 11 < v))
        ∧ (detect_open_time_unit v = .s ↔ v ≤ 10 ^ 11) := by
  refine ⟨by decide, by decide, by decide, ?_⟩
  intro v
  refine ⟨?_, ?_, ?_⟩ <;>
    (unfold detect_open_time_unit; split_ifs with h1 h2 <;> simp <;> omega)

/-- C3: the Chunked Range Fetcher's loop follows exactly the claimed steps:
the transcription of the Python loop coincides, for every page oracle,
page size, end bound, fuel, cursor and accumulator, with the loop written
from the claim's own description, and hence so does the run from a start
cursor. -/
theorem claim_C3_chunked_fetch (fetch : Int → Series) (lim : Nat) (endMs : Int)
    (fuel : Nat) (cursor : Int) (acc : List Series) :
    chunked_fetch_code fetch lim endMs fuel cursor acc
      = chunked_fetch_spec fetch lim endMs fuel cursor acc
    ∧ chunked_fetch_run fetch lim endMs fuel cursor
      = chunked_fetch_spec fetch lim endMs fuel cursor [] := by
  have main : ∀ (n : Nat) (cur : Int) (a : List Series),
      chunked_fetch_code fetch lim endMs n cur a
        = chunked_fetch_spec fetch lim endMs n cur a := by
    intro n
    induction n with
    | zero => intro cur a; rfl
    | succ m ih =>
      intro cur a
      rw [chunked_fetch_code, chunked_fetch_spec]
      cases hL : (fetch cur).getLast? with
      | none => rfl
      | some lastRow =>
        by_cases h1 : endMs ≤ lastRow.1
        · simp [h1, List.dropLast_concat]
        · by_cases h2 : (fetch cur).length < lim
          · simp [h1, h2]
          · simp [h1, h2, ih]
  exact ⟨main fuel cursor acc, main fuel cursor []⟩

/-- C10: with the canonical CSV missing, the since-computation triggered by
the update-to-latest CLI (which passes `days_back=None`) raises an
uncaught `TypeError` from `timedelta(days=None)` — it never produces a
since-timestamp from any fallback lookback window. -/
theorem claim_C10_none_days_back (overlap nowMs : Int) (tf : String) :
    update_symbol_latest_since none overlap tf nowMs = .error .typeError
    ∧ ∀ v : Int, update_symbol_latest_since none overlap tf nowMs ≠ .ok v := by
  refine ⟨rfl, ?_⟩
  intro v h
  simp [update_symbol_latest_since, since_ms_for_symbol, timedelta_days_ms,
    Except.map] at h

/-- C9: in `save_data`'s existing-file path, only fetched rows strictly
beyond the last stored timestamp are appended: every stored row at or
before that timestamp keeps its existing value, so a differing new value
at an already-stored timestamp is silently discarded. -/
theorem claim_C9_append_only (existing df : Series) (L : Int × Candle)
    (hlast : existing.getLast? = some L)
    (hinc : (tsKeys existing).Pairwise (· < ·))
    (t : Int) (ht : t ≤ L.1) :
    ∃ m, save_data_existing_merge existing df = some m
      ∧ lookupTs m t = lookupTs existing t := by
  have hnd : (tsKeys existing).Nodup := nodup_of_strictIncr hinc
  by_cases hemp : (df.filter (fun r => L.1 < r.1)).isEmpty
  · exact ⟨existing, by simp [save_data_existing_merge, hlast, hemp], rfl⟩
  · refine ⟨mergeDedup existing (df.filter (fun r => L.1 < r.1)),
      by simp [save_data_existing_merge, hlast, hemp], ?_⟩
    rw [lookupTs_mergeDedup, List.reverse_append, List.find?_append]
    have hnone : (df.filter (fun r => L.1 < r.1)).reverse.find?
        (fun y => y.1 == t) = none := by
      rw [List.find?_eq_none]
      intro x hx hxt
      have hgt : decide (L.1 < x.1) = true :=
        (List.mem_filter.mp (List.mem_reverse.mp hx)).2
      simp only [beq_iff_eq] at hxt
      simp only [decide_eq_true_eq] at hgt
      omega
    rw [hnone, Option.none_or]
    have hndr : (tsKeys existing.reverse).Nodup := by
      unfold tsKeys
      rw [List.map_reverse]
      exact List.nodup_reverse.mpr hnd
    rw [find?_key_eq_of_perm (List.reverse_perm existing) hndr]
    rfl

/-- Witness for C9: the stored row at timestamp 5 (the last stored one)
keeps its close even though the fetched frame carries a different value
there. -/
theorem claim_C9_witness :
    ∃ m, save_data_existing_merge [((5 : Int), ⟨1, 1, 1, 1, 1⟩)]
        [((5 : Int), ⟨2, 2, 2, 2, 2⟩), ((6 : Int), ⟨3, 3, 3, 3, 3⟩)] = some m
      ∧ lookupTs m 5 = lookupTs [((5 : Int), ⟨1, 1, 1, 1, 1⟩)] 5 :=
  claim_C9_append_only [((5 : Int), ⟨1, 1, 1, 1, 1⟩)]
    [((5 : Int), ⟨2, 2, 2, 2, 2⟩), ((6 : Int), ⟨3, 3, 3, 3, 3⟩)]
    ((5 : Int), ⟨1, 1, 1, 1, 1⟩) rfl (by decide) 5 (by decide)

/-- Counterexample to C1 as stated: total_return_pct is NOT null in two of
the cases the claim requires.  In the fetcher manifest path a zero first
close yields the non-null float `inf` (float division by zero does not
raise, so the `except` guard never fires); in the bundle importer a
1-row partition yields the non-null value `0.0` (the first-close-zero
guard is the only one on that path). -/
theorem claim_C1_counterexample :
    total_return_pct_fetcher [0, 150] = some FloatVal.posInf
    ∧ some FloatVal.posInf ≠ (none : Option FloatVal)
    ∧ total_return_pct_importer [100] = some 0
    ∧ (some (0 : ℚ) : Option ℚ) ≠ none := by
  refine ⟨by decide, by simp, ?_, by simp⟩
  rw [show total_return_pct_importer [100]
      = some ((((100 : ℚ) / 100) - 1) * 100) from rfl]
  norm_num

/-- C1 amended: in the fetcher manifest paths (`save_data`,
`update_symbols_to_now`), total_return_pct = (last close / first close −
1) × 100 when the Series has at least 2 rows and the first close is
nonzero; it is null when the Series has fewer than 2 rows; a zero first
close with at least 2 rows yields a non-null, non-finite float (±inf or
NaN), not null.  In the bundle-importer path, total_return_pct is
computed for every nonempty partition — including 1-row ones — as
(last/first − 1) × 100 when the first close is nonzero, and is null
exactly when the first close is 0. -/
theorem claim_C1_total_return (closes : List ℚ) (first last : ℚ)
    (hh : closes.head? = some first) (hl : closes.getLast? = some last) :
    (closes.length < 2 → total_return_pct_fetcher closes = none)
    ∧ (2 ≤ closes.length → first ≠ 0 →
        total_return_pct_fetcher closes
          = some (FloatVal.num ((last / first - 1) * 100)))
    ∧ (2 ≤ closes.length → first = 0 →
        ((∀ q : ℚ, total_return_pct_fetcher closes ≠ some (FloatVal.num q))
          ∧ total_return_pct_fetcher closes ≠ none))
    ∧ (first ≠ 0 →
        total_return_pct_importer closes = some ((last / first - 1) * 100))
    ∧ (first = 0 → total_return_pct_importer closes = none) := by
  refine ⟨?_, ?_, ?_, ?_, ?_⟩
  · intro hlt
    simp [total_return_pct_fetcher, Nat.not_le.mpr hlt]
  · intro hge hf0
    simp [total_return_pct_fetcher, hge, hl, hh, floatDiv, hf0, floatShiftScale]
  · intro hge hf0
    constructor
    · intro q
      simp only [total_return_pct_fetcher, if_pos hge, hl, hh, floatDiv, hf0,
        if_pos rfl]
      split_ifs <;> simp [floatShiftScale]
    · simp only [total_return_pct_fetcher, if_pos hge, hl, hh, floatDiv, hf0,
        if_pos rfl]
      split_ifs <;> simp [floatShiftScale]
  · intro hf0
    simp [total_return_pct_importer, hh, hl, hf0]
  · intro hf0
    simp [total_return_pct_importer, hh, hl, hf0]

/-- Witness for the amended C1: first close 100, last close 150 give 50.0
on both manifest-writer paths. -/
theorem claim_C1_witness :
    (([100, 150] : List ℚ).head? = some 100
      ∧ ([100, 150] : List ℚ).getLast? = some 150)
    ∧ total_return_pct_fetcher [100, 150] = some (FloatVal.num 50)
    ∧ total_return_pct_importer [100, 150] = some 50 := by
  have h := claim_C1_total_return [100, 150] 100 150 rfl rfl
  have hv : (((150 : ℚ) / 100 - 1) * 100) = 50 := by norm_num
  refine ⟨⟨rfl, rfl⟩, ?_, ?_⟩
  · rw [h.2.1 (by decide) (by norm_num), hv]
  · rw [h.2.2.2.1 (by norm_num), hv]

/-- Counterexample to C4 as stated: for timeframe "1m" the bar duration Δ
is one minute (60000 ms), but the Resume Planner's interval parser falls
back to one hour for any timeframe not ending in 'h' or 'd', so for an
existing Series ending at T = 0 with overlap k = 2 it returns
−7200000 = T − 2·(1 hour) instead of T − 2·Δ = −120000. -/
theorem claim_C4_counterexample :
    barDurationMs "1m" = some 60000
    ∧ interval_of_timeframe "1m" = 3600000
    ∧ since_ms_for_symbol (some 0) 2 "1m" 0 (some 365) = .ok (-7200000)
    ∧ ((-7200000 : Int) ≠ 0 - 2 * 60000) := by
  refine ⟨by decide, by decide, by rfl, by decide⟩

/-- C4 amended: for a timeframe ending in 'h' whose remaining characters
parse as a number n, the Resume Planner returns T − k·(n hours); for one
ending in 'd' (and not 'h') with digits n, T − k·(n days) — in both
cases T − k·Δ for the bar duration Δ.  For every other timeframe (e.g.
"1m") it falls back to Δ = 1 hour regardless of the actual bar duration.
When no Series exists it returns now − days_back days. -/
theorem claim_C4_resume_planner (T nowMs db k : Int) (tf : String) (n : Nat) :
    (strEndsWith tf 'h' = true → digitsToNat? (strRemoveChar tf 'h') = some n →
      since_ms_for_symbol (some T) k tf nowMs (some db)
        = .ok (T - k * (3600000 * (n : Int))))
    ∧ (strEndsWith tf 'h' = false → strEndsWith tf 'd' = true →
        digitsToNat? (strRemoveChar tf 'd') = some n →
      since_ms_for_symbol (some T) k tf nowMs (some db)
        = .ok (T - k * (86400000 * (n : Int))))
    ∧ (strEndsWith tf 'h' = false → strEndsWith tf 'd' = false →
      since_ms_for_symbol (some T) k tf nowMs (some db)
        = .ok (T - k * 3600000))
    ∧ since_ms_for_symbol none k tf nowMs (some db)
        = .ok (nowMs - 86400000 * db) := by
  refine ⟨?_, ?_, ?_, rfl⟩
  · intro h1 h2
    simp [since_ms_for_symbol, interval_of_timeframe, h1, h2]
  · intro h1 h2 h3
    simp [since_ms_for_symbol, interval_of_timeframe, h1, h2, h3]
  · intro h1 h2
    simp [since_ms_for_symbol, interval_of_timeframe, h1, h2]

/-- Witness for the amended C4: an existing Series ending at T = 10,
overlap 2, timeframe "2h" resumes at 10 − 2·(2 hours). -/
theorem claim_C4_witness :
    (strEndsWith "2h" 'h' = true ∧ digitsToNat? (strRemoveChar "2h" 'h') = some 2)
    ∧ since_ms_for_symbol (some 10) 2 "2h" 0 (some 365)
        = .ok (10 - 2 * (3600000 * (2 : Int))) :=
  ⟨⟨by decide, by decide⟩,
    (claim_C4_resume_planner 10 0 365 2 "2h" 2).1 (by decide) (by decide)⟩

/-- C6: after the Bundle Importer processes the months of a year into
fresh partitions, each month partition holds exactly its bundle's rows
(no cross-month deduplication) and the yearly roll-up's total `rows`
equals the sum of the per-month `rows` values. -/
theorem claim_C6_yearly_rollup (bundles : List (String × Series))
    (hinc : ∀ b ∈ bundles, (tsKeys b.2).Pairwise (· < ·)) :
    import_months bundles = bundles.map (fun b => (b.1, b.2.length))
    ∧ yearly_rollup_rows (rollup_input (import_months bundles))
        = (bundles.map (fun b => b.2.length)).sum := by
  have hmap : import_months bundles = bundles.map (fun b => (b.1, b.2.length)) := by
    unfold import_months
    refine List.map_congr_left ?_
    intro b hb
    have h1 : mergeDedup [] b.2 = b.2 := by
      unfold mergeDedup
      rw [List.nil_append,
        dedupKeepLast_eq_self_of_nodup (nodup_of_strictIncr (hinc b hb))]
      exact sortByTs_eq_self_of_sorted (sorted_of_strictIncr (hinc b hb))
    simp [month_partition_rows, h1]
  refine ⟨hmap, ?_⟩
  rw [hmap]
  unfold yearly_rollup_rows
  rw [foldl_rollup_eq_sum, List.map_map]
  simp only [Nat.zero_add]
  rfl

/-- Witness for C6: two month bundles of 2 rows each roll up to 4 rows. -/
theorem claim_C6_witness :
    import_months
        [("2024-01", [((1 : Int), ⟨1, 1, 1, 1, 1⟩), ((2 : Int), ⟨1, 1, 1, 1, 1⟩)]),
         ("2024-02", [((3 : Int), ⟨1, 1, 1, 1, 1⟩), ((4 : Int), ⟨1, 1, 1, 1, 1⟩)])]
      = [("2024-01", 2), ("2024-02", 2)]
    ∧ yearly_rollup_rows (rollup_input (import_months
        [("2024-01", [((1 : Int), ⟨1, 1, 1, 1, 1⟩), ((2 : Int), ⟨1, 1, 1, 1, 1⟩)]),
         ("2024-02", [((3 : Int), ⟨1, 1, 1, 1, 1⟩), ((4 : Int), ⟨1, 1, 1, 1, 1⟩)])]))
      = 4 := by
  have h := claim_C6_yearly_rollup
    [("2024-01", [((1 : Int), ⟨1, 1, 1, 1, 1⟩), ((2 : Int), ⟨1, 1, 1, 1, 1⟩)]),
     ("2024-02", [((3 : Int), ⟨1, 1, 1, 1, 1⟩), ((4 : Int), ⟨1, 1, 1, 1, 1⟩)])]
    (by decide)
  exact ⟨h.1, h.2⟩

end CryptoData
